import Mathlib

/-!
Verification of the password-transformer repository.

Passwords are modelled as `List Char` (ASCII character classes, as the
source's regexes use ASCII classes).  Machine floats are modelled as `ℚ`;
Python's `round` (half-to-even) is modelled by `pyRound`.  Randomness is
modelled by an oracle (`RNG`): each random draw reads an arbitrary but fixed
stream, so universally quantified theorems cover every possible outcome.
-/

/-- ASCII code points of the special-character class
used by the source's regexes (the 32 characters of the character class in
`analyzer.py` and `transformer.py`). -/
def specialCodes : List Nat :=
  [33, 64, 35, 36, 37, 94, 38, 42, 40, 41, 44, 46, 63, 34, 58, 123, 125, 124,
   60, 62, 95, 43, 61, 45, 91, 93, 92, 59, 39, 47, 126, 96]

/-- Membership in the special-character regex class. -/
def isSpecialChar (c : Char) : Bool := specialCodes.contains c.toNat

/-- Python's substring test on strings, over character lists. -/
def containsSub (needle : List Char) : List Char → Bool
  | [] => needle.isEmpty
  | c :: t => needle.isPrefixOf (c :: t) || containsSub needle t

/-- The common-password set from `PasswordAnalyzer._load_common_passwords`
(the duplicate literal entry of the Python set collapses; membership is
identical). -/
def common_passwords : List (List Char) :=
  ["password".toList, "123456".toList, "password123".toList, "admin".toList,
   "qwerty".toList, "letmein".toList, "welcome".toList, "monkey".toList,
   "1234567890".toList, "abc123".toList, "password1".toList, "user".toList,
   "login".toList, "master".toList, "hello".toList, "guest".toList,
   "administrator".toList, "root".toList, "12345".toList, "qwerty123".toList,
   "Password1".toList, "superman".toList, "michael".toList, "jesus".toList,
   "ninja".toList, "mustang".toList, "access".toList, "shadow".toList,
   "jennifer".toList, "jordan".toList, "hunter".toList, "fuckyou".toList,
   "trustno1".toList, "ranger".toList, "buster".toList]

/-- `PasswordAnalyzer._check_common_password`: lowercased membership. -/
def check_common_password (p : List Char) : Bool :=
  common_passwords.contains (p.map Char.toLower)

/-- The fixed list scanned by `PasswordAnalyzer._check_keyboard_patterns`. -/
def keyboard_check_patterns : List (List Char) :=
  ["qwerty".toList, "qwertyui".toList, "asdf".toList, "asdfgh".toList,
   "zxcv".toList, "zxcvbn".toList, "1234".toList, "12345".toList,
   "123456".toList, "1234567890".toList]

/-- `PasswordAnalyzer._check_keyboard_patterns`: a pattern or its reversal
occurs in the lowercased password. -/
def check_keyboard_patterns (p : List Char) : Bool :=
  let lp := p.map Char.toLower
  keyboard_check_patterns.any (fun pat => containsSub pat lp || containsSub pat.reverse lp)

/-- `PasswordAnalyzer._check_repeated_characters`: three equal consecutive
characters. -/
def check_repeated_characters : List Char → Bool
  | a :: b :: c :: t => (a == b && b == c) || check_repeated_characters (b :: c :: t)
  | _ => false

/-- Three consecutive characters that are all digits with successive values
(the numeric half of `_check_sequential_patterns`). -/
def hasDigitRun3 : List Char → Bool
  | a :: b :: c :: t =>
      (a.isDigit && b.isDigit && c.isDigit
        && (b.toNat == a.toNat + 1) && (c.toNat == b.toNat + 1))
      || hasDigitRun3 (b :: c :: t)
  | _ => false

/-- Three consecutive characters with successive code points (the `ord`-based
half of `_check_sequential_patterns`; the source applies it to the lowercased
password with no letter check). -/
def hasOrdRun3 : List Char → Bool
  | a :: b :: c :: t =>
      ((b.toNat == a.toNat + 1) && (c.toNat == b.toNat + 1)) || hasOrdRun3 (b :: c :: t)
  | _ => false

/-- `PasswordAnalyzer._check_sequential_patterns`. -/
def check_sequential_patterns (p : List Char) : Bool :=
  hasDigitRun3 p || hasOrdRun3 (p.map Char.toLower)

/-- The word list of `PasswordAnalyzer._check_dictionary_words`. -/
def common_words : List (List Char) :=
  ["password".toList, "admin".toList, "user".toList, "guest".toList,
   "login".toList, "welcome".toList, "hello".toList, "world".toList,
   "love".toList, "money".toList, "home".toList, "time".toList,
   "people".toList, "water".toList, "day".toList, "man".toList,
   "woman".toList, "child".toList, "life".toList, "work".toList,
   "school".toList, "year".toList]

/-- `PasswordAnalyzer._check_dictionary_words`. -/
def check_dictionary_words (p : List Char) : Bool :=
  let lp := p.map Char.toLower
  common_words.any (fun w => containsSub w lp)

/-- Regex `[a-zA-Z]+\d+` anchored at both ends (used for the
`word_with_numbers` pattern class); since the two classes are disjoint the
greedy match is the takeWhile decomposition. -/
def matchAlphaThenDigits (p : List Char) : Bool :=
  let a := p.takeWhile Char.isAlpha
  let d := p.dropWhile Char.isAlpha
  !a.isEmpty && !d.isEmpty && d.all Char.isDigit

/-- Regex `\d+[a-zA-Z]+` anchored at both ends. -/
def matchDigitsThenAlpha (p : List Char) : Bool :=
  let d := p.takeWhile Char.isDigit
  let a := p.dropWhile Char.isDigit
  !d.isEmpty && !a.isEmpty && a.all Char.isAlpha

/-- Regex `[a-zA-Z]+[special]+` anchored at both ends. -/
def matchAlphaThenSpecials (p : List Char) : Bool :=
  let a := p.takeWhile Char.isAlpha
  let s := p.dropWhile Char.isAlpha
  !a.isEmpty && !s.isEmpty && s.all isSpecialChar

/-- `PasswordAnalyzer._identify_pattern_type`: first matching class wins. -/
def identify_pattern_type (p : List Char) : String :=
  if p.isEmpty then "empty"
  else if check_common_password p then "common"
  else if p.all Char.isDigit then "numeric"
  else if p.all Char.isAlpha then "alphabetic"
  else if matchAlphaThenDigits p then "word_with_numbers"
  else if matchDigitsThenAlpha p then "numbers_with_word"
  else if check_keyboard_patterns p then "keyboard_pattern"
  else if matchAlphaThenSpecials p then "word_with_symbols"
  else "mixed"

/-- `password[1:-1]` as used by `_calculate_complexity_score`. -/
def middleChars (p : List Char) : List Char :=
  if 2 < p.length then (p.drop 1).dropLast else []

/-- `PasswordAnalyzer._calculate_complexity_score`. -/
def calculate_complexity_score (p : List Char) : ℕ :=
  min
    (min (p.length * 4) 25
      + (if p.any Char.isLower then 2 else 0)
      + (if p.any Char.isUpper then 2 else 0)
      + (if p.any Char.isDigit then 4 else 0)
      + (if p.any isSpecialChar then 6 else 0)
      + (middleChars p).countP Char.isDigit * 2
      + (middleChars p).countP isSpecialChar * 2)
    100

/-- Round half to even on rationals, modelling Python's `round` to zero
decimal places. -/
def pyRound (x : ℚ) : ℤ :=
  if x - ⌊x⌋ = 1/2 then (if 2 ∣ ⌊x⌋ then ⌊x⌋ else ⌊x⌋ + 1) else round x

/-- Python's `round(x, 1)`. -/
def pyRound1 (x : ℚ) : ℚ := (pyRound (x * 10) : ℚ) / 10

/-- Python's `round(x, 3)`. -/
def pyRound3 (x : ℚ) : ℚ := (pyRound (x * 1000) : ℚ) / 1000

/-- The fields `analyze_password` computes before the strength score.  The
entropy `length * log2(charset_size)` is irrational in general, so it is
carried as a rational parameter; no other field depends on it. -/
structure AnalysisFacts where
  length : ℕ
  has_digits : Bool
  has_uppercase : Bool
  has_lowercase : Bool
  has_special : Bool
  digit_count : ℕ
  uppercase_count : ℕ
  lowercase_count : ℕ
  special_count : ℕ
  entropy : ℚ
  is_common : Bool
  has_keyboard_pattern : Bool
  has_repeated_chars : Bool
  has_sequential : Bool
  character_diversity : ℚ
  pattern_type : String
  has_dictionary_word : Bool
  complexity_score : ℕ

/-- `PasswordAnalyzer._calculate_strength_score` over the analysis record. -/
def calculate_strength_score (a : AnalysisFacts) : ℚ :=
  let base : ℚ :=
    (a.complexity_score : ℚ) * (4/10)
    + min ((a.length : ℚ) * (5/2)) 20
    + ((if a.has_lowercase then (5 : ℚ) else 0) + (if a.has_uppercase then 5 else 0)
        + (if a.has_digits then 5 else 0) + (if a.has_special then 5 else 0))
    + min (a.entropy / 4) 15
    + a.character_diversity * 10
  let penalties : ℚ :=
    (if a.is_common then 30 else 0) + (if a.has_keyboard_pattern then 15 else 0)
    + (if a.has_repeated_chars then 10 else 0) + (if a.has_sequential then 10 else 0)
    + (if a.has_dictionary_word then 10 else 0) + (if a.length < 8 then 15 else 0)
  pyRound1 (max 0 (min 100 (base - penalties)))

/-- `PasswordAnalyzer._get_strength_level`. -/
def get_strength_level (score : ℚ) : String :=
  if 80 ≤ score then "very_strong"
  else if 60 ≤ score then "strong"
  else if 40 ≤ score then "moderate"
  else if 20 ≤ score then "weak"
  else "very_weak"

/-- The full analysis record. -/
structure Analysis extends AnalysisFacts where
  strength_score : ℚ
  strength_level : String

/-- The pre-score fields of `analyze_password` for a non-empty password. -/
def analysisFacts (p : List Char) (entropy : ℚ) : AnalysisFacts :=
  { length := p.length
    has_digits := p.any Char.isDigit
    has_uppercase := p.any Char.isUpper
    has_lowercase := p.any Char.isLower
    has_special := p.any isSpecialChar
    digit_count := p.countP Char.isDigit
    uppercase_count := p.countP Char.isUpper
    lowercase_count := p.countP Char.isLower
    special_count := p.countP isSpecialChar
    entropy := entropy
    is_common := check_common_password p
    has_keyboard_pattern := check_keyboard_patterns p
    has_repeated_chars := check_repeated_characters p
    has_sequential := check_sequential_patterns p
    character_diversity := (p.dedup.length : ℚ) / (p.length : ℚ)
    pattern_type := identify_pattern_type p
    has_dictionary_word := check_dictionary_words p
    complexity_score := calculate_complexity_score p }

/-- `PasswordAnalyzer._empty_analysis`. -/
def empty_analysis : Analysis :=
  { length := 0, has_digits := false, has_uppercase := false, has_lowercase := false,
    has_special := false, digit_count := 0, uppercase_count := 0, lowercase_count := 0,
    special_count := 0, entropy := 0, is_common := true, has_keyboard_pattern := false,
    has_repeated_chars := false, has_sequential := false, character_diversity := 0,
    pattern_type := "empty", has_dictionary_word := false, complexity_score := 0,
    strength_score := 0, strength_level := "very_weak" }

/-- `PasswordAnalyzer.analyze_password` (entropy passed as a parameter). -/
def analyze_password (p : List Char) (entropy : ℚ) : Analysis :=
  if p.isEmpty then empty_analysis
  else
    let f := analysisFacts p entropy
    let s := calculate_strength_score f
    { toAnalysisFacts := f, strength_score := s, strength_level := get_strength_level s }

/-- C1 reference formula, transcribed from the specification text: weighted
complexity, length bonus, class-flag bonus, entropy bonus, diversity bonus,
penalties, clamped to `[0, 100]` and rounded to one decimal. -/
def C1_formula (p : List Char) (entropy : ℚ) : ℚ :=
  let complexity : ℕ :=
    min (min (4 * p.length) 25
      + (if p.any Char.isLower then 2 else 0) + (if p.any Char.isUpper then 2 else 0)
      + (if p.any Char.isDigit then 4 else 0) + (if p.any isSpecialChar then 6 else 0)
      + 2 * (middleChars p).countP Char.isDigit
      + 2 * (middleChars p).countP isSpecialChar) 100
  let raw : ℚ :=
    (4/10) * (complexity : ℚ)
    + min ((5/2) * (p.length : ℚ)) 20
    + (if p.any Char.isLower then (5 : ℚ) else 0) + (if p.any Char.isUpper then (5 : ℚ) else 0)
    + (if p.any Char.isDigit then (5 : ℚ) else 0) + (if p.any isSpecialChar then (5 : ℚ) else 0)
    + min (entropy / 4) 15
    + 10 * ((p.dedup.length : ℚ) / (p.length : ℚ))
    - ((if check_common_password p then (30 : ℚ) else 0)
       + (if check_keyboard_patterns p then 15 else 0)
       + (if check_repeated_characters p then 10 else 0)
       + (if check_sequential_patterns p then 10 else 0)
       + (if check_dictionary_words p then 10 else 0)
       + (if p.length < 8 then 15 else 0))
  pyRound1 (max 0 (min 100 raw))

/-- C1: for every non-empty password, the `strength_score` field of
`analyze_password` equals the reference formula of the specification
(with the same entropy value). -/
theorem C1_strength_score_matches_formula (p : List Char) (e : ℚ) (hp : p ≠ []) :
    (analyze_password p e).strength_score = C1_formula p e := by
  have hne : p.isEmpty = false := by
    cases p with
    | nil => exact absurd rfl hp
    | cons a t => rfl
  simp only [analyze_password, hne, Bool.false_eq_true, if_false, C1_formula,
    analysisFacts, calculate_strength_score, calculate_complexity_score]
  congr 2
  ring_nf

/-- Witness for C1 at the concrete password "abc" with entropy 0. -/
theorem C1_strength_score_matches_formula_witness :
    (analyze_password ['a', 'b', 'c'] 0).strength_score = C1_formula ['a', 'b', 'c'] 0 :=
  C1_strength_score_matches_formula ['a', 'b', 'c'] 0 (by decide)

/-- Numeric rank of a strength level, for stating monotonicity. -/
def strengthRank (lvl : String) : ℕ :=
  if lvl = "very_weak" then 0
  else if lvl = "weak" then 1
  else if lvl = "moderate" then 2
  else if lvl = "strong" then 3
  else if lvl = "very_strong" then 4
  else 0

/-- C4: the strength level bands are inclusive on their lower bound, and the
level is a monotone step function of the score. -/
theorem C4_strength_level_bands :
    (∀ s : ℚ,
      (get_strength_level s = "very_strong" ↔ 80 ≤ s)
      ∧ (get_strength_level s = "strong" ↔ 60 ≤ s ∧ s < 80)
      ∧ (get_strength_level s = "moderate" ↔ 40 ≤ s ∧ s < 60)
      ∧ (get_strength_level s = "weak" ↔ 20 ≤ s ∧ s < 40)
      ∧ (get_strength_level s = "very_weak" ↔ s < 20))
    ∧ ∀ s1 s2 : ℚ, s1 ≤ s2 →
        strengthRank (get_strength_level s1) ≤ strengthRank (get_strength_level s2) := by
  constructor
  · intro s
    unfold get_strength_level
    split_ifs with h1 h2 h3 h4 <;>
      refine ⟨?_, ?_, ?_, ?_, ?_⟩ <;>
        simp <;>
        first
          | (constructor <;> linarith)
          | (intros; linarith)
  · intro s1 s2 h
    unfold get_strength_level
    split_ifs <;> simp [strengthRank] <;> linarith

/-- Witness for C4's monotonicity at concrete scores 30 and 85. -/
theorem C4_strength_level_bands_witness :
    strengthRank (get_strength_level 30) ≤ strengthRank (get_strength_level 85) :=
  C4_strength_level_bands.2 30 85 (by norm_num)

/-- Randomness oracle.  `coins k` models the outcome of the `random.random()
< chance` comparison at draw site `k`; `picks k` models the integer drawn by
`random.choice` / `random.randint` / `random.sample` at site `k`.  Each call
site reads a fixed index, so a universally quantified theorem covers every
possible sequence of outcomes of the Python generator. -/
structure RNG where
  coins : ℕ → Bool
  picks : ℕ → ℕ

/-- Python `str(n)` for a natural number, as characters. -/
def natDigits (n : ℕ) : List Char := Nat.toDigits 10 n

/-- Python `int(s)` on a digit string. -/
def digitsToNat (l : List Char) : ℕ := l.foldl (fun a c => 10 * a + (c.toNat - 48)) 0

/-- Python `str.zfill`. -/
def zfill (w : ℕ) (l : List Char) : List Char := List.replicate (w - l.length) '0' ++ l

/-- `random.choice` over a non-empty literal list, driven by the oracle. -/
def pickFrom (rng : RNG) (k : ℕ) (l : List Char) : Char := l.getD (rng.picks k % l.length) '!'

/-- The settings map restricted to its recognized keys, with absent keys
resolved to their `settings.get` defaults. -/
structure Settings where
  character_substitution : Bool
  add_year : Bool
  intelligent_patterns : Bool
  preserve_strong : Bool
  increment_numbers : Bool
  intensity : String

/-- Python `str.capitalize`: first character uppercased, the rest lowercased. -/
def pyCapitalize : List Char → List Char
  | [] => []
  | c :: t => c.toUpper :: t.map Char.toLower

/-- Helper for `pyTitle`, carrying whether the previous character was a letter. -/
def pyTitleGo : Bool → List Char → List Char
  | _, [] => []
  | prevAlpha, c :: t =>
      (if c.isAlpha then (if prevAlpha then c.toLower else c.toUpper) else c)
        :: pyTitleGo c.isAlpha t

/-- Python `str.title` (ASCII). -/
def pyTitle (l : List Char) : List Char := pyTitleGo false l

/-- Python `str.replace(c, r, 1)` for single characters. -/
def replaceFirstChar (c r : Char) : List Char → List Char
  | [] => []
  | x :: t => if x = c then r :: t else x :: replaceFirstChar c r t

/-- Python `str.replace(old, new)` with a non-empty `old = o :: os`:
left-to-right non-overlapping replacement. -/
def replaceAllNE (o : Char) (os repl : List Char) : List Char → List Char
  | [] => []
  | c :: t =>
    if (o :: os).isPrefixOf (c :: t) then
      repl ++ replaceAllNE o os repl (t.drop os.length)
    else c :: replaceAllNE o os repl t
termination_by s => s.length
decreasing_by
· simp only [List.length_drop, List.length_cons]
  omega
· simp

/-- Python `str.replace(old, new)`. -/
def replaceAllSub (old repl s : List Char) : List Char :=
  match old with
  | [] => s
  | o :: os => replaceAllNE o os repl s

/-- First match of the regex `(19|20)\d{2}`, scanning left to right, returning
the matched four-digit value. -/
def findYear : List Char → Option ℕ
  | a :: b :: c :: d :: t =>
    if ((a = '1' ∧ b = '9') ∨ (a = '2' ∧ b = '0')) ∧ c.isDigit ∧ d.isDigit then
      some (digitsToNat [a, b, c, d])
    else findYear (b :: c :: d :: t)
  | _ => none

/-- Regex `\d{4}`: four consecutive digits occur somewhere. -/
def hasFourDigitRun : List Char → Bool
  | a :: b :: c :: d :: t =>
      (a.isDigit && b.isDigit && c.isDigit && d.isDigit) || hasFourDigitRun (b :: c :: d :: t)
  | _ => false

/-- The leet-speak table of `TransformationStrategies.char_substitutions`. -/
def char_substitutions (c : Char) : List Char :=
  if c = 'a' then ['@', '4']
  else if c = 'e' then ['3']
  else if c = 'i' then ['1', '!']
  else if c = 'o' then ['0']
  else if c = 's' then ['$', '5']
  else if c = 'l' then ['1']
  else if c = 't' then ['7']
  else if c = 'g' then ['9']
  else if c = 'b' then ['6']
  else if c = 'z' then ['2']
  else []

/-- The `max_subs` bound of `apply_character_substitution` per intensity. -/
def maxSubsFor (intensity : String) (len : ℕ) : ℕ :=
  if intensity = "conservative" then 1
  else if intensity = "moderate" then len / 4
  else len / 2

/-- The loop of `apply_character_substitution`: walks the lowercased
characters at index `i` with running `count`, reading `password[i]` from the
original list (`none` models the `IndexError` that an out-of-range index
would raise). -/
def applySubstGo (rng : RNG) (maxSubs : ℕ) (orig : List Char) :
    ℕ → ℕ → List Char → Option (List Char × ℕ)
  | _, count, [] => some ([], count)
  | i, count, c :: cs =>
    if !(char_substitutions c).isEmpty && decide (count < maxSubs) then
      if rng.coins i then
        match orig.get? i with
        | none => none
        | some oc =>
          let opts := char_substitutions c
          let nc0 := opts.getD (rng.picks i % opts.length) c
          let nc := if oc.isUpper && nc0.isAlpha then nc0.toUpper else nc0
          match applySubstGo rng maxSubs orig (i + 1) (count + 1) cs with
          | none => none
          | some (rest, fc) => some (nc :: rest, fc)
      else
        match applySubstGo rng maxSubs orig (i + 1) count cs with
        | none => none
        | some (rest, fc) => some (c :: rest, fc)
    else
      match applySubstGo rng maxSubs orig (i + 1) count cs with
      | none => none
      | some (rest, fc) => some (c :: rest, fc)

/-- `TransformationStrategies.apply_character_substitution`, also exposing the
final `substitution_count` of the loop. -/
def apply_character_substitutionC (rng : RNG) (p : List Char) (intensity : String) :
    Option (List Char × ℕ) :=
  applySubstGo rng (maxSubsFor intensity p.length) p 0 0 (p.map Char.toLower)

/-- `TransformationStrategies.apply_character_substitution`. -/
def apply_character_substitution (rng : RNG) (p : List Char) (intensity : String) :
    Option (List Char) :=
  (apply_character_substitutionC rng p intensity).map Prod.fst

/-- The literal replacement table of `_transform_common_password`. -/
def common_patterns_assoc : List (List Char × List (List Char)) :=
  [("password".toList, ["P@ssw0rd".toList, "Passw0rd!".toList, "P4ssw0rd".toList]),
   ("admin".toList, ["Adm1n".toList, "@dmin".toList, "Admin123".toList]),
   ("user".toList, ["Us3r".toList, "User!".toList, "U$er".toList]),
   ("qwerty".toList, ["Qw3rty".toList, "Qwerty!".toList, "QW3RTY".toList]),
   ("welcome".toList, ["W3lcome".toList, "Welcome!".toList, "W3lc0me!".toList]),
   ("hello".toList, ["H3llo".toList, "Hello!".toList, "H3ll0!".toList]),
   ("letmein".toList, ["L3tme1n".toList, "LetMe1n!".toList, "L3tm31n".toList])]

/-- `TransformationStrategies._transform_common_password`. -/
def transform_common_password (rng : RNG) (year : ℕ) (p : List Char) : List Char :=
  let lp := p.map Char.toLower
  match common_patterns_assoc.lookup lp with
  | some opts => opts.getD (rng.picks 100 % opts.length) p
  | none =>
    let k := rng.picks 101 % 4
    if k = 0 then pyCapitalize p ++ "123!".toList
    else if k = 1 then (p.map Char.toUpper).take 3 ++ (p.map Char.toLower).drop 3 ++ "2024".toList
    else if k = 2 then
      (p.map (fun c => if c = 'a' then '@' else c)).map (fun c => if c = 'o' then '0' else c)
        ++ ['!']
    else pyTitle p ++ natDigits year

/-- `TransformationStrategies._enhance_word_with_numbers`. -/
def enhance_word_with_numbers (p : List Char) : List Char :=
  let a := p.takeWhile Char.isAlpha
  let d := p.dropWhile Char.isAlpha
  if !a.isEmpty && !d.isEmpty && d.all Char.isDigit then
    let ew := pyCapitalize a
    let ew2 := if (a.map Char.toLower).contains 'a' then replaceFirstChar 'a' '@' ew else ew
    ew2 ++ natDigits (digitsToNat d + 1) ++ ['!']
  else p

/-- `TransformationStrategies._enhance_numeric_password`. -/
def enhance_numeric_password (p : List Char) : List Char :=
  if p.length ≤ 6 then "Pass".toList ++ p ++ ['!']
  else p.take (p.length / 2) ++ "Pass".toList ++ p.drop (p.length / 2) ++ ['!']

/-- `TransformationStrategies._enhance_alphabetic_password`. -/
def enhance_alphabetic_password (year : ℕ) (p : List Char) : List Char :=
  let e1 := pyCapitalize p
  let e2 := replaceFirstChar 'a' '@' e1
  let e3 := replaceFirstChar 'o' '0' e2
  e3 ++ natDigits year ++ ['!']

/-- The ordered replacement table of `_transform_keyboard_pattern`. -/
def keyboard_transformations : List (List Char × List Char) :=
  [("qwerty".toList, "Qw3rty!".toList), ("asdf".toList, "@sdf123".toList),
   ("zxcv".toList, "Zxcv2024!".toList), ("1234".toList, "Pass1234!".toList),
   ("12345".toList, "Secure12345".toList)]

/-- `TransformationStrategies._transform_keyboard_pattern`. -/
def transform_keyboard_pattern (p : List Char) : List Char :=
  let lp := p.map Char.toLower
  match keyboard_transformations.find? (fun kv => containsSub kv.1 lp) with
  | some kv => kv.2
  | none => pyCapitalize p ++ "2024!".toList

/-- `TransformationStrategies.apply_intelligent_enhancement`: common-password
rewrite, then a dispatch on the original password's pattern type. -/
def apply_intelligent_enhancement (rng : RNG) (year : ℕ) (p : List Char)
    (analysis : Analysis) : List Char :=
  let e1 := if analysis.is_common then transform_common_password rng year p else p
  if analysis.pattern_type = "word_with_numbers" then enhance_word_with_numbers e1
  else if analysis.pattern_type = "numeric" then enhance_numeric_password e1
  else if analysis.pattern_type = "alphabetic" then enhance_alphabetic_password year e1
  else if analysis.pattern_type = "keyboard_pattern" then transform_keyboard_pattern e1
  else e1

/-- `TransformationStrategies._add_uppercase` (and `PasswordTransformer._add_uppercase`):
uppercase the first lowercase letter, if any. -/
def add_uppercase : List Char → List Char
  | [] => []
  | c :: t => if c.isAlpha && c.isLower then c.toUpper :: t else c :: add_uppercase t

/-- `TransformationStrategies._smart_increment`. -/
def smart_increment (year : ℕ) (n : ℕ) : ℕ :=
  if n = 0 then 1
  else if 1900 ≤ n ∧ n ≤ 2030 then year
  else if n < 10 then (if n = 9 then (n + 1) % 10 else n + 1)
  else if n < 100 then (if n < 99 then n + 1 else n + 10)
  else if n = 123 then 124
  else if natDigits n = (natDigits n).reverse then n + 10
  else n + 1

/-- Rewrite one matched digit run: smart increment, preserving leading zeros
by `zfill` to the run's width. -/
def transformRun (year : ℕ) (run : List Char) : List Char :=
  let m := smart_increment year (digitsToNat run)
  if run.headD ' ' = '0' ∧ 1 < run.length then zfill run.length (natDigits m) else natDigits m

/-- `List.dropWhile` never lengthens a list. -/
theorem length_dropWhile_le_self (f : Char → Bool) :
    ∀ l : List Char, (l.dropWhile f).length ≤ l.length
  | [] => le_refl _
  | c :: t => by
    by_cases h : f c
    · simp only [List.dropWhile_cons, h, if_true]
      exact le_trans (length_dropWhile_le_self f t) (Nat.le_succ _)
    · simp [List.dropWhile_cons, h]

/-- The spans of `re.finditer(r'\d+', ...)`: the maximal digit runs together
with their start offsets, `i` being the offset of the list's head. -/
def findRuns : ℕ → List Char → List (ℕ × List Char)
  | _, [] => []
  | i, c :: cs =>
    if c.isDigit then
      (i, c :: cs.takeWhile Char.isDigit)
        :: findRuns (i + (c :: cs.takeWhile Char.isDigit).length) (cs.dropWhile Char.isDigit)
    else findRuns (i + 1) cs
termination_by _ l => l.length
decreasing_by
· exact Nat.lt_succ_of_le (length_dropWhile_le_self _ _)
· simp

/-- `result[:start] + new + result[end:]` for a span of width `w` at `start`. -/
def splice (s : List Char) (start w : ℕ) (repl : List Char) : List Char :=
  s.take start ++ repl ++ s.drop (start + w)

/-- `TransformationStrategies.increment_numbers`: all maximal digit runs are
located on the original password and then rewritten back to front (the
reversed-`finditer` splicing loop of the source; `foldr` applies the
rightmost run first, exactly as the reversed loop does). -/
def increment_numbers (year : ℕ) (p : List Char) : List Char :=
  (findRuns 0 p).foldr (fun r acc => splice acc r.1 r.2.length (transformRun year r.2)) p

/-- Left-to-right per-run rewriting of maximal digit runs (proved equal to
`increment_numbers` below). -/
def incrementTok (year : ℕ) : List Char → List Char
  | [] => []
  | c :: cs =>
    if c.isDigit then
      transformRun year (c :: cs.takeWhile Char.isDigit)
        ++ incrementTok year (cs.dropWhile Char.isDigit)
    else c :: incrementTok year cs
termination_by l => l.length
decreasing_by
· exact Nat.lt_succ_of_le (length_dropWhile_le_self _ _)
· simp

/-- Greedy split of a digit run into the 1-2 character chunks that
`re.finditer(r'\d{1,2}', ...)` produces inside a maximal run. -/
def chunk2 : List Char → List (List Char)
  | [] => []
  | [a] => [[a]]
  | a :: b :: t => [a, b] :: chunk2 t

/-- One chunk of `_light_number_increment`: increment values below 50. -/
def lightIncChunk (chunk : List Char) : List Char :=
  let n := digitsToNat chunk
  if n < 50 then natDigits (if n < 99 then n + 1 else n) else chunk

/-- `TransformationStrategies._light_number_increment`: the reversed splicing
loop over `\d{1,2}` matches, expressed as the equivalent left-to-right
per-chunk rewrite (the spans are disjoint, so back-to-front splicing rewrites
each chunk independently). -/
def light_number_increment : List Char → List Char
  | [] => []
  | c :: cs =>
    if c.isDigit then
      ((chunk2 (c :: cs.takeWhile Char.isDigit)).map lightIncChunk).flatten
        ++ light_number_increment (cs.dropWhile Char.isDigit)
    else c :: light_number_increment cs
termination_by l => l.length
decreasing_by
· exact Nat.lt_succ_of_le (length_dropWhile_le_self _ _)
· simp

/-- `TransformationStrategies.apply_light_optimization`. -/
def apply_light_optimization (year : ℕ) (p : List Char) : List Char :=
  let o1 := if p.any Char.isDigit then light_number_increment p else p
  match findYear o1 with
  | some y =>
      if (y : ℤ) < (year : ℤ) - 1 then replaceAllSub (natDigits y) (natDigits year) o1 else o1
  | none => o1

/-- `TransformationStrategies._add_strategic_special_chars`. -/
def add_strategic_special_chars (rng : RNG) (p : List Char) : List Char :=
  if rng.coins 200 then p ++ [pickFrom rng 201 ['!', '@', '#']]
  else if 4 < p.length then
    let pos := 1 + rng.picks 202 % (p.length - 2)
    p.take pos ++ [pickFrom rng 203 ['!', '@', '#', '$', '%', '&', '*']] ++ p.drop (pos + 1)
  else p ++ ['!']

/-- The `while` loop of `_fix_repeated_characters`: at a 3-run starting at
`i`, the middle character is replaced and the index jumps by 3. -/
def fixRepGo (p : List Char) (i : ℕ) : List Char :=
  if i + 2 < p.length then
    if p.getD i ' ' = p.getD (i + 1) ' ' ∧ p.getD (i + 1) ' ' = p.getD (i + 2) ' ' then
      let c := p.getD i ' '
      let r :=
        if c.isDigit then Char.ofNat ((c.toNat - 48 + 1) % 10 + 48)
        else if !(char_substitutions c.toLower).isEmpty then (char_substitutions c.toLower).headD c
        else if c.isLower then c.toUpper else c.toLower
      fixRepGo (p.set (i + 1) r) (i + 3)
    else fixRepGo p (i + 1)
  else p
termination_by p.length - i
decreasing_by
· simp only [List.length_set]
  omega
· omega

/-- `TransformationStrategies._fix_repeated_characters`. -/
def fix_repeated_characters (p : List Char) : List Char := fixRepGo p 0

/-- One substitution of `apply_selective_substitution` at position `pos`. -/
def substituteAt (rng : RNG) (p : List Char) (pos : ℕ) : List Char :=
  let c := (p.getD pos ' ').toLower
  let opts := char_substitutions c
  if opts.isEmpty then p
  else
    let nc0 := opts.getD (rng.picks (300 + pos) % opts.length) c
    let nc := if (p.getD pos ' ').isUpper && nc0.isAlpha then nc0.toUpper else nc0
    p.set pos nc

/-- `TransformationStrategies.apply_selective_substitution`: `random.sample`
of 1-2 substitutable positions is modelled by drawing one or two distinct
indices into the position list from the oracle. -/
def apply_selective_substitution (rng : RNG) (p : List Char) : List Char :=
  let positions :=
    (List.range p.length).filter (fun i => !(char_substitutions ((p.getD i ' ').toLower)).isEmpty)
  if positions.isEmpty then p
  else
    let L := positions.length
    let i1 := rng.picks 301 % L
    if min 2 L = 1 then substituteAt rng p (positions.getD i1 0)
    else
      let j := rng.picks 302 % (L - 1)
      let i2 := if i1 ≤ j then j + 1 else j
      substituteAt rng (substituteAt rng p (positions.getD i1 0)) (positions.getD i2 0)

/-- `TransformationStrategies.apply_pattern_improvements`. -/
def apply_pattern_improvements (rng : RNG) (year : ℕ) (p : List Char)
    (analysis : Analysis) : List Char :=
  let i1 := increment_numbers year p
  let i2 := if !analysis.has_special then add_strategic_special_chars rng i1 else i1
  if analysis.has_repeated_chars then fix_repeated_characters i2 else i2

/-- The ordered table of `apply_basic_substitution`. -/
def basic_subs : List (Char × Char) := [('a', '@'), ('e', '3'), ('i', '1'), ('o', '0'), ('s', '$')]

/-- Replace the first character whose lowercase form is `k` by `r`. -/
def basicSubstituteAtFirst (k r : Char) : List Char → List Char
  | [] => []
  | c :: t => if c.toLower = k then r :: t else c :: basicSubstituteAtFirst k r t

/-- `TransformationStrategies.apply_basic_substitution`: the first table entry
present in the lowercased password is substituted at its first occurrence. -/
def apply_basic_substitution (p : List Char) : List Char :=
  match basic_subs.find? (fun kv => (p.map Char.toLower).contains kv.1) with
  | some kv => basicSubstituteAtFirst kv.1 kv.2 p
  | none => p

/-- `PasswordTransformer._minimal_optimization`. -/
def minimal_optimization (year : ℕ) (p : List Char) (settings : Settings) : List Char :=
  if settings.add_year then
    match findYear p with
    | some y =>
        if (y : ℤ) < (year : ℤ) - 1 then replaceAllSub (natDigits y) (natDigits year) p else p
    | none => p
  else p

/-- `PasswordTransformer._enhance_weak_password`. -/
def enhance_weak_password (rng : RNG) (year : ℕ) (p : List Char) (analysis : Analysis)
    (settings : Settings) : Option (List Char) :=
  let t1 := if settings.intelligent_patterns then apply_intelligent_enhancement rng year p analysis else p
  let step2 :=
    if settings.character_substitution
        && (settings.intensity == "moderate" || settings.intensity == "aggressive") then
      apply_character_substitution rng t1 settings.intensity
    else some t1
  match step2 with
  | none => none
  | some t2 =>
    let t3 := if analysis.has_uppercase then t2 else add_uppercase t2
    let t4 :=
      if analysis.has_digits then t3
      else if settings.add_year then
        if settings.intensity = "aggressive" then t3 ++ natDigits year
        else t3 ++ (natDigits year).drop ((natDigits year).length - 2)
      else t3 ++ natDigits (10 + rng.picks 400 % 90)
    let t5 :=
      if !analysis.has_special && decide (settings.intensity ≠ "conservative") then
        if settings.intensity = "aggressive" then t4 ++ [pickFrom rng 401 ['!', '@', '#', '$', '%']]
        else t4 ++ ['!']
      else t4
    some t5

/-- `PasswordTransformer._improve_moderate_password`. -/
def improve_moderate_password (rng : RNG) (year : ℕ) (p : List Char) (analysis : Analysis)
    (settings : Settings) : List Char :=
  let t1 := if settings.intelligent_patterns then apply_pattern_improvements rng year p analysis else p
  let t2 :=
    if settings.character_substitution && settings.intensity == "aggressive" then
      apply_selective_substitution rng t1
    else t1
  let t3 := if settings.increment_numbers then increment_numbers year t2 else t2
  if settings.add_year && !hasFourDigitRun t3
      && (settings.intensity == "moderate" || settings.intensity == "aggressive")
      && decide (t3.length < 12) then
    t3 ++ natDigits year
  else t3

/-- `PasswordTransformer._optimize_strong_password`. -/
def optimize_strong_password (year : ℕ) (p : List Char) (analysis : Analysis)
    (settings : Settings) : List Char :=
  let t1 := if settings.intelligent_patterns then apply_light_optimization year p else p
  if settings.intensity = "conservative" then
    if settings.increment_numbers then increment_numbers year t1 else t1
  else if settings.intensity = "moderate" ∨ settings.intensity = "aggressive" then
    if settings.add_year then
      match findYear t1 with
      | some y =>
          if (y : ℤ) < (year : ℤ) then replaceAllSub (natDigits y) (natDigits year) t1 else t1
      | none => t1
    else t1
  else t1

/-- `PasswordTransformer._apply_default_transformation`. -/
def apply_default_transformation (year : ℕ) (p : List Char) (settings : Settings) : List Char :=
  let t1 := if settings.character_substitution then apply_basic_substitution p else p
  let t2 := if settings.add_year && !hasFourDigitRun t1 then t1 ++ natDigits year else t1
  if t2.any Char.isUpper then t2 else add_uppercase t2

/-- `PasswordTransformer.transform_password`: dispatch on the report's
strength level (`year` is the transformer's `current_year`). -/
def transform_password (rng : RNG) (year : ℕ) (p : List Char) (analysis : Analysis)
    (settings : Settings) : Option (List Char) :=
  if p.isEmpty then some p
  else if settings.preserve_strong && analysis.strength_level == "very_strong" then
    some (minimal_optimization year p settings)
  else if analysis.strength_level == "very_weak" || analysis.strength_level == "weak" then
    enhance_weak_password rng year p analysis settings
  else if analysis.strength_level == "moderate" then
    some (improve_moderate_password rng year p analysis settings)
  else if analysis.strength_level == "strong" then
    some (optimize_strong_password year p analysis settings)
  else
    some (apply_default_transformation year p settings)

/-- The feedback weight of `_update_preferences_from_feedback`:
`max(0.1, rating / 10.0)` when accepted, else `0.05`. -/
def feedbackWeight (rating : ℤ) (accepted : Bool) : ℚ :=
  if accepted then max (1/10) ((rating : ℚ) / 10) else 1/20

/-- A stored boolean preference entry of `BehaviorTracker.user_preferences`:
preferred value and confidence (the observation count and timestamp do not
feed back into the update rule and are omitted). -/
structure BoolPref where
  value : Bool
  confidence : ℚ

/-- The boolean branch of `_update_preferences_from_feedback` for a single
setting key.  `stored = none` models an absent key, whose stored value
defaults to the observed value and whose confidence defaults to 0.5. -/
def updateBoolPref (stored : Option BoolPref) (observed : Bool) (weight : ℚ) : BoolPref :=
  let v := (stored.map BoolPref.value).getD observed
  let c := (stored.map BoolPref.confidence).getD (1/2)
  if observed = v then { value := v, confidence := min (19/20) (c + weight) }
  else
    let nc := max (1/20) (c - weight)
    if nc < 3/10 then { value := observed, confidence := 3/5 }
    else { value := v, confidence := nc }

/-- A run of agreeing observations of the value `b` starting from a fresh
entry (the first observation of a fresh key agrees with itself, so the run is
a fold from the defaults). -/
def runAgreeing (b : Bool) (ws : List ℚ) : BoolPref :=
  ws.foldl (fun st w => updateBoolPref (some st) b w) { value := b, confidence := 1/2 }

/-- `RecommendationEngine._calculate_combined_confidence`: the zipped
weighted sum of the three confidences, rounded to three decimals. -/
def calculate_combined_confidence (ml behavior context : ℚ) : ℚ :=
  let weights : List ℚ := [3/10, 1/2, 1/5]
  let confidences : List ℚ := [ml, behavior, context]
  pyRound3 ((weights.zip confidences).foldl (fun acc wc => acc + wc.1 * wc.2) 0)

/-- Python dict lookup with default, over an association list whose first
binding wins. -/
def ratesGet (rs : List (String × ℚ)) (k : String) (dflt : ℚ) : ℚ :=
  (rs.lookup k).getD dflt

/-- `PatternLearner._update_success_rates`: updates the rate stored under the
pattern type (absent key reads the `defaultdict(float)` default 0.0), then
the rate under the combined pattern-intensity key (absent key reads the
`.get` default 0.5). -/
def update_success_rates (rs : List (String × ℚ)) (pattern_type intensity : String)
    (score : ℚ) : List (String × ℚ) :=
  let r1 := (pattern_type, ratesGet rs pattern_type 0 * (8/10) + score * (2/10)) :: rs
  let sk := pattern_type ++ "_" ++ intensity
  (sk, ratesGet r1 sk (1/2) * (8/10) + score * (2/10)) :: r1

/-- The part of `PatternLearner`'s state that `learn_transformation_pattern`
updates and the success-rate claims read: the history length and the success
rates.  Building the pattern record and the periodic clustering refit do not
write to `success_rates`. -/
structure LearnerState where
  historyLen : ℕ
  success_rates : List (String × ℚ)

/-- `PatternLearner.learn_transformation_pattern`, restricted to its effect
on the history length and the success rates. -/
def learn_transformation_pattern (st : LearnerState) (pattern_type intensity : String)
    (success_score : ℚ) : LearnerState :=
  { historyLen := st.historyLen + 1
    success_rates := update_success_rates st.success_rates pattern_type intensity success_score }

/-- The intensity table built by `predict_best_settings` (in the insertion
order of the Python dict literal) with its absent-key defaults. -/
def intensity_rates (rs : List (String × ℚ)) (pattern_type : String) : List (String × ℚ) :=
  [("light", ratesGet rs (pattern_type ++ "_light") (1/2)),
   ("moderate", ratesGet rs (pattern_type ++ "_moderate") (6/10)),
   ("aggressive", ratesGet rs (pattern_type ++ "_aggressive") (7/10))]

/-- Python `max(items, key=lambda x: x[1])`: the first item attaining the
maximal value (`max` replaces the running best only on strict increase). -/
def maxByValue : List (String × ℚ) → Option (String × ℚ)
  | [] => none
  | kv :: t =>
    match maxByValue t with
    | none => some kv
    | some best => if best.2 > kv.2 then some best else some kv

/-- The intensity selection of `PatternLearner.predict_best_settings`: the
`recommended_intensity` field (`best_intensity` in the source). -/
def predict_best_settings_intensity (rs : List (String × ℚ)) (pattern_type : String) : String :=
  ((maxByValue (intensity_rates rs pattern_type)).map Prod.fst).getD "light"

/-- The all-zeros randomness oracle, used for concrete evaluations. -/
def rngZero : RNG := { coins := fun _ => false, picks := fun _ => 0 }

/-- C3: transforming a password whose report is `very_strong`, with
`preserve_strong` enabled and no `(19|20)\d{2}` match in the password,
returns the password unchanged, for every intensity and every other
combination of toggles. -/
theorem C3_preserve_strong_returns_input (rng : RNG) (year : ℕ) (p : List Char)
    (analysis : Analysis) (settings : Settings)
    (hlvl : analysis.strength_level = "very_strong")
    (hps : settings.preserve_strong = true)
    (hyr : findYear p = none) :
    transform_password rng year p analysis settings = some p := by
  unfold transform_password
  by_cases hp : p.isEmpty
  · simp [hp]
  · simp [hp, hlvl, hps, minimal_optimization, hyr]

/-- A concrete very-strong report, used as a witness input for C3. -/
def strongReportW : Analysis :=
  { length := 11, has_digits := false, has_uppercase := true, has_lowercase := true,
    has_special := true, digit_count := 0, uppercase_count := 4, lowercase_count := 6,
    special_count := 1, entropy := 72, is_common := false, has_keyboard_pattern := false,
    has_repeated_chars := false, has_sequential := false, character_diversity := 1,
    pattern_type := "mixed", has_dictionary_word := false, complexity_score := 40,
    strength_score := 85, strength_level := "very_strong" }

/-- All-on settings with moderate intensity, used as a witness input. -/
def settingsAllOn : Settings :=
  { character_substitution := true, add_year := true, intelligent_patterns := true,
    preserve_strong := true, increment_numbers := true, intensity := "moderate" }

/-- Witness for C3 on a concrete year-free very strong password. -/
theorem C3_preserve_strong_returns_input_witness :
    transform_password rngZero 2026 "Xk#mPqLsVt!".toList strongReportW settingsAllOn
      = some "Xk#mPqLsVt!".toList :=
  C3_preserve_strong_returns_input rngZero 2026 "Xk#mPqLsVt!".toList strongReportW
    settingsAllOn rfl rfl (by decide)

/-- The per-position relation between an input character and the
corresponding character produced by the substitution loop: either the
lowercased original, or a leet-table substitute of the lowercased original
(possibly uppercased by the dead case-restore branch). -/
def substRel (c d : Char) : Prop :=
  d = c.toLower ∨ ∃ c0, c0 ∈ char_substitutions c.toLower ∧ (d = c0 ∨ d = c0.toUpper)

/-- The substitution loop of `apply_character_substitution`, started at offset
`pre.length` on the lowercased image of the suffix, always succeeds; its final
count never exceeds `maxSubs` (when the running count does not), and every
output character is related to its input character by `substRel`. -/
theorem applySubstGo_spec (rng : RNG) (maxSubs : ℕ) :
    ∀ (suf pre : List Char) (count : ℕ),
    ∃ out fc,
      applySubstGo rng maxSubs (pre ++ suf) pre.length count (suf.map Char.toLower)
        = some (out, fc)
      ∧ count ≤ fc ∧ (count ≤ maxSubs → fc ≤ maxSubs)
      ∧ List.Forall₂ substRel suf out := by
  intro suf
  induction suf with
  | nil =>
    intro pre count
    exact ⟨[], count, rfl, le_refl _, fun h => h, List.Forall₂.nil⟩
  | cons c t ih =>
    intro pre count
    have hsplit : pre ++ c :: t = (pre ++ [c]) ++ t := by simp
    have hlen : (pre ++ [c]).length = pre.length + 1 := by simp
    have hget : (pre ++ c :: t).get? pre.length = some c := by
      rw [List.get?_append_right (le_refl _)]
      simp
    by_cases hcond :
        (!(char_substitutions c.toLower).isEmpty && decide (count < maxSubs)) = true
    · by_cases hcoin : rng.coins pre.length = true
      · -- substitution happens at this position
        have hlt : count < maxSubs := by
          have := (Bool.and_eq_true _ _).mp hcond
          exact of_decide_eq_true this.2
        have hne : (char_substitutions c.toLower).isEmpty = false := by
          have := (Bool.and_eq_true _ _).mp hcond
          simpa using this.1
        obtain ⟨out, fc, hrun, hfc1, hfc2, hrel⟩ := ih (pre ++ [c]) (count + 1)
        rw [hlen, ← hsplit] at hrun
        simp only [List.map_cons, applySubstGo, hcond, if_true, hcoin, hget, hrun]
        refine ⟨_, fc, rfl, by omega, fun hc => hfc2 (by omega), ?_⟩
        refine List.Forall₂.cons ?_ hrel
        right
        have hpos : 0 < (char_substitutions c.toLower).length := by
          cases hcc : char_substitutions c.toLower with
          | nil => rw [hcc] at hne; exact absurd hne (by simp)
          | cons x xs => simp
        have hmem : (char_substitutions c.toLower).getD
            (rng.picks pre.length % (char_substitutions c.toLower).length) c.toLower
              ∈ char_substitutions c.toLower := by
          have hin : rng.picks pre.length % (char_substitutions c.toLower).length
              < (char_substitutions c.toLower).length := Nat.mod_lt _ hpos
          rw [List.getD_eq_getElem _ _ hin]
          exact List.getElem_mem hin
        refine ⟨_, hmem, ?_⟩
        by_cases hup : (c.isUpper && ((char_substitutions c.toLower).getD
            (rng.picks pre.length % (char_substitutions c.toLower).length) c.toLower).isAlpha)
            = true
        · right
          rw [if_pos hup]
        · left
          rw [if_neg hup]
      · -- coin says no: character kept (lowercased), count unchanged
        rw [Bool.not_eq_true] at hcoin
        obtain ⟨out, fc, hrun, hfc1, hfc2, hrel⟩ := ih (pre ++ [c]) count
        rw [hlen, ← hsplit] at hrun
        simp only [List.map_cons, applySubstGo, hcond, if_true, hcoin, hrun,
          Bool.false_eq_true, if_false]
        exact ⟨_, fc, rfl, hfc1, hfc2, List.Forall₂.cons (Or.inl rfl) hrel⟩
    · -- not substitutable or count exhausted: character kept, count unchanged
      rw [Bool.not_eq_true] at hcond
      obtain ⟨out, fc, hrun, hfc1, hfc2, hrel⟩ := ih (pre ++ [c]) count
      rw [hlen, ← hsplit] at hrun
      simp only [List.map_cons, applySubstGo, hcond, Bool.false_eq_true, if_false, hrun]
      exact ⟨_, fc, rfl, hfc1, hfc2, List.Forall₂.cons (Or.inl rfl) hrel⟩

/-- `apply_character_substitution` always succeeds; its substitution count is
bounded by the intensity cap and every character is kept (lowercased) or
replaced from the leet table. -/
theorem apply_character_substitutionC_spec (rng : RNG) (p : List Char) (intensity : String) :
    ∃ out fc, apply_character_substitutionC rng p intensity = some (out, fc)
      ∧ fc ≤ maxSubsFor intensity p.length
      ∧ List.Forall₂ substRel p out := by
  obtain ⟨out, fc, hrun, -, hfc2, hrel⟩ :=
    applySubstGo_spec rng (maxSubsFor intensity p.length) p [] 0
  refine ⟨out, fc, ?_, hfc2 (Nat.zero_le _), hrel⟩
  simpa [apply_character_substitutionC] using hrun

/-- `_enhance_weak_password` always returns a result. -/
theorem enhance_weak_password_total (rng : RNG) (year : ℕ) (p : List Char)
    (analysis : Analysis) (settings : Settings) :
    ∃ out, enhance_weak_password rng year p analysis settings = some out := by
  unfold enhance_weak_password
  by_cases hs : (settings.character_substitution
      && (settings.intensity == "moderate" || settings.intensity == "aggressive")) = true
  · obtain ⟨o, fc, ho, -, -⟩ := apply_character_substitutionC_spec rng
      (if settings.intelligent_patterns then
        apply_intelligent_enhancement rng year p analysis else p) settings.intensity
    simp only [hs, if_true, apply_character_substitution, ho, Option.map_some]
    exact ⟨_, rfl⟩
  · simp only [hs, if_false, Bool.false_eq_true]
    exact ⟨_, rfl⟩

/-- C9: for every password (the empty string included), every report and
every settings combination, the transformation returns a result — no
execution path of the embedding fails — and the empty password is passed
through unchanged. -/
theorem C9_transform_total_and_empty_passthrough (rng : RNG) (year : ℕ) (p : List Char)
    (analysis : Analysis) (settings : Settings) :
    (∃ out, transform_password rng year p analysis settings = some out)
    ∧ transform_password rng year ([] : List Char) analysis settings = some [] := by
  constructor
  · unfold transform_password
    by_cases h0 : p.isEmpty
    · exact ⟨p, by simp [h0]⟩
    · simp only [h0, if_false, Bool.false_eq_true]
      by_cases h1 : (settings.preserve_strong && analysis.strength_level == "very_strong") = true
      · exact ⟨minimal_optimization year p settings, by simp [h1]⟩
      · simp only [h1, if_false, Bool.false_eq_true]
        by_cases h2 : (analysis.strength_level == "very_weak"
            || analysis.strength_level == "weak") = true
        · obtain ⟨o, ho⟩ := enhance_weak_password_total rng year p analysis settings
          exact ⟨o, by simp [h2, ho]⟩
        · simp only [h2, if_false, Bool.false_eq_true]
          split_ifs <;> exact ⟨_, rfl⟩
  · rfl

/-- Settings used in the C5 counterexample: substitution on, intelligent
patterns off, moderate intensity. -/
def settingsC5 : Settings :=
  { character_substitution := true, add_year := true, intelligent_patterns := false,
    preserve_strong := true, increment_numbers := true, intensity := "moderate" }

/-- The analyzer's report for the password "AB" (entropy parameter 47/5, a
rational stand-in for the true 2·log2(26) ≈ 9.40; any entropy below 34.6
yields the same level). -/
def reportAB : Analysis :=
  { length := 2, has_digits := false, has_uppercase := true, has_lowercase := false,
    has_special := false, digit_count := 0, uppercase_count := 2, lowercase_count := 0,
    special_count := 0, entropy := 47/5, is_common := false, has_keyboard_pattern := false,
    has_repeated_chars := false, has_sequential := false, character_diversity := 1,
    pattern_type := "alphabetic", has_dictionary_word := false, complexity_score := 10,
    strength_score := 57/5, strength_level := "very_weak" }

/-- The report of "AB" is genuinely produced by the analyzer: "AB" is a very
weak password. -/
theorem analyze_AB_eq_reportAB : analyze_password ['A', 'B'] (47/5) = reportAB := by
  have hfe : analysisFacts ['A', 'B'] (47/5) = reportAB.toAnalysisFacts := by
    unfold analysisFacts reportAB
    congr 1
    all_goals
      first
        | decide
        | (rw [(by decide : (['A', 'B'] : List Char).dedup = ['A', 'B'])]; norm_num)
  have hscore : calculate_strength_score (analysisFacts ['A', 'B'] (47/5)) = 57/5 := by
    rw [hfe]
    unfold reportAB calculate_strength_score pyRound1 pyRound
    norm_num [min_def, max_def, round_eq]
  unfold analyze_password
  rw [if_neg (by decide)]
  show ({ toAnalysisFacts := analysisFacts ['A', 'B'] (47/5),
          strength_score := calculate_strength_score (analysisFacts ['A', 'B'] (47/5)),
          strength_level :=
            get_strength_level (calculate_strength_score (analysisFacts ['A', 'B'] (47/5)))
        } : Analysis) = reportAB
  rw [hscore, hfe]
  unfold get_strength_level reportAB
  norm_num

/-- C5 counterexample: for the very weak password "AB" under moderate
intensity, the substitution step performs zero substitutions (its final count
is 0) yet returns "ab" — a character that is not substituted does not appear
in the step's output as it appeared in the input, because the step lowercases
the password first. -/
theorem C5_counterexample_case_not_preserved :
    (analyze_password ['A', 'B'] (47/5)).strength_level = "very_weak"
    ∧ apply_character_substitutionC rngZero ['A', 'B'] "moderate" = some (['a', 'b'], 0)
    ∧ transform_password rngZero 2026 ['A', 'B'] (analyze_password ['A', 'B'] (47/5))
        settingsC5 = some ['a', 'b', '2', '6', '!']
    ∧ (['a', 'b'] : List Char) ≠ ['A', 'B'] := by
  refine ⟨by rw [analyze_AB_eq_reportAB]; rfl, by decide, ?_, by decide⟩
  rw [analyze_AB_eq_reportAB]
  decide

/-- C5 amended: within the weak-password path the substitution step always
succeeds, performs at most 1 substitution under conservative intensity, at
most `length/4` under moderate and at most `length/2` under aggressive,
drawing replacements from the leet table — but it lowercases the password
first, so a character that is not substituted appears in the step's output as
the lowercase of its input character (not necessarily unchanged). -/
theorem C5_substitution_bound_and_lowercase (rng : RNG) (p : List Char) (intensity : String) :
    ∃ out count,
      apply_character_substitutionC rng p intensity = some (out, count)
      ∧ apply_character_substitution rng p intensity = some out
      ∧ (intensity = "conservative" → count ≤ 1)
      ∧ (intensity = "moderate" → count ≤ p.length / 4)
      ∧ (intensity = "aggressive" → count ≤ p.length / 2)
      ∧ List.Forall₂ substRel p out := by
  obtain ⟨out, fc, h, hb, hrel⟩ := apply_character_substitutionC_spec rng p intensity
  refine ⟨out, fc, h, by simp [apply_character_substitution, h], ?_, ?_, ?_, hrel⟩
  · intro hi; rw [hi] at hb; simpa [maxSubsFor] using hb
  · intro hi; rw [hi] at hb; simpa [maxSubsFor] using hb
  · intro hi; rw [hi] at hb; simpa [maxSubsFor] using hb

/-- Witness for C5's amended bound at a concrete input under conservative
intensity. -/
theorem C5_substitution_bound_and_lowercase_witness :
    ∃ out count,
      apply_character_substitutionC rngZero ['A', 'b', 'c'] "conservative" = some (out, count)
      ∧ count ≤ 1 := by
  obtain ⟨out, count, h1, -, h3, -, -, -⟩ :=
    C5_substitution_bound_and_lowercase rngZero ['A', 'b', 'c'] "conservative"
  exact ⟨out, count, h1, h3 rfl⟩

/-- Splicing `repl` over the span of `run` inside `q ++ run ++ rest` replaces
exactly that run. -/
theorem splice_append (q run rest repl : List Char) :
    splice ((q ++ run) ++ rest) q.length run.length repl = (q ++ repl) ++ rest := by
  have h1 : ((q ++ run) ++ rest).take q.length = q := by
    rw [List.append_assoc]
    exact List.take_left q (run ++ rest)
  have h2 : ((q ++ run) ++ rest).drop (q.length + run.length) = rest := by
    rw [show q.length + run.length = (q ++ run).length from (List.length_append q run).symm]
    exact List.drop_left (q ++ run) rest
  unfold splice
  rw [h1, h2, List.append_assoc]

/-- Splicing the runs found from offset `q.length` back to front into
`q ++ p` rewrites each maximal run in place: it equals the left-to-right
per-run rewrite of `p`, with the prefix `q` untouched. -/
theorem foldr_findRuns_eq (year : ℕ) (p q : List Char) :
    (findRuns q.length p).foldr
        (fun r acc => splice acc r.1 r.2.length (transformRun year r.2)) (q ++ p)
      = q ++ incrementTok year p := by
  match p with
  | [] => simp [findRuns, incrementTok]
  | c :: cs =>
    by_cases hd : c.isDigit
    · have hrunrest : (c :: cs.takeWhile Char.isDigit) ++ cs.dropWhile Char.isDigit = c :: cs := by
        simp [List.takeWhile_append_dropWhile]
      have hfr : findRuns q.length (c :: cs)
          = (q.length, c :: cs.takeWhile Char.isDigit)
            :: findRuns (q.length + (c :: cs.takeWhile Char.isDigit).length)
                (cs.dropWhile Char.isDigit) := by
        simp only [findRuns, hd, if_true]
      have htok : incrementTok year (c :: cs)
          = transformRun year (c :: cs.takeWhile Char.isDigit)
            ++ incrementTok year (cs.dropWhile Char.isDigit) := by
        simp only [incrementTok, hd, if_true]
      have hlen2 : q.length + (c :: cs.takeWhile Char.isDigit).length
          = (q ++ (c :: cs.takeWhile Char.isDigit)).length := (List.length_append _ _).symm
      have happ : q ++ c :: cs
          = (q ++ (c :: cs.takeWhile Char.isDigit)) ++ cs.dropWhile Char.isDigit := by
        rw [List.append_assoc, hrunrest]
      have hIH := foldr_findRuns_eq year (cs.dropWhile Char.isDigit)
          (q ++ (c :: cs.takeWhile Char.isDigit))
      rw [hfr, htok]
      simp only [List.foldr_cons]
      rw [happ, hlen2, hIH, splice_append, List.append_assoc]
    · have hfr : findRuns q.length (c :: cs) = findRuns (q.length + 1) cs := by
        simp only [findRuns, hd, Bool.false_eq_true, if_false]
      have htok : incrementTok year (c :: cs) = c :: incrementTok year cs := by
        simp only [incrementTok, hd, Bool.false_eq_true, if_false]
      have hlen2 : q.length + 1 = (q ++ [c]).length := by simp
      have happ : q ++ c :: cs = (q ++ [c]) ++ cs := by simp
      have hIH := foldr_findRuns_eq year cs (q ++ [c])
      rw [hfr, htok, happ, hlen2, hIH]
      simp
termination_by p.length
decreasing_by
· exact Nat.lt_succ_of_le (length_dropWhile_le_self _ _)
· simp

/-- C2's per-run increment rule, transcribed from the claim: 0 becomes 1, a
value in `[1900, 2030]` becomes the current year, a single digit is
incremented with 9 wrapping to 0, a two-digit value is incremented with 99
becoming 109, 123 becomes 124, a decimal palindrome gains 10, anything else
gains 1 — earlier rules taking priority. -/
def C2_incrementRun (year n : ℕ) : ℕ :=
  if n = 0 then 1
  else if 1900 ≤ n ∧ n ≤ 2030 then year
  else if n < 10 then (if n = 9 then 0 else n + 1)
  else if 10 ≤ n ∧ n ≤ 99 then (if n = 99 then 109 else n + 1)
  else if n = 123 then 124
  else if natDigits n = (natDigits n).reverse then n + 10
  else n + 1

/-- C2's whole-run rewrite: increment the run's value, re-padding to the
run's width when the run has a leading zero. -/
def C2_rewriteRun (year : ℕ) (run : List Char) : List Char :=
  let m := C2_incrementRun year (digitsToNat run)
  if run.headD ' ' = '0' ∧ 1 < run.length then zfill run.length (natDigits m) else natDigits m

/-- C2's specification of `increment_numbers`: every maximal digit run is
rewritten by `C2_rewriteRun`; all other characters are unchanged. -/
def C2_rewrite (year : ℕ) : List Char → List Char
  | [] => []
  | c :: cs =>
    if c.isDigit then
      C2_rewriteRun year (c :: cs.takeWhile Char.isDigit)
        ++ C2_rewrite year (cs.dropWhile Char.isDigit)
    else c :: C2_rewrite year cs
termination_by l => l.length
decreasing_by
· exact Nat.lt_succ_of_le (length_dropWhile_le_self _ _)
· simp

/-- The source's `_smart_increment` computes exactly the claim's rule. -/
theorem smart_increment_eq_C2 (year n : ℕ) :
    smart_increment year n = C2_incrementRun year n := by
  unfold smart_increment C2_incrementRun
  split_ifs <;> omega

/-- The source's run rewrite computes exactly the claim's run rewrite. -/
theorem transformRun_eq_C2 (year : ℕ) (run : List Char) :
    transformRun year run = C2_rewriteRun year run := by
  unfold transformRun C2_rewriteRun
  rw [smart_increment_eq_C2]

/-- The per-run tokenizer agrees with the claim-side rewrite. -/
theorem incrementTok_eq_C2 (year : ℕ) (p : List Char) :
    incrementTok year p = C2_rewrite year p := by
  match p with
  | [] => simp [incrementTok, C2_rewrite]
  | c :: cs =>
    by_cases hd : c.isDigit
    · simp only [incrementTok, C2_rewrite, hd, if_true]
      rw [transformRun_eq_C2, incrementTok_eq_C2 year (cs.dropWhile Char.isDigit)]
    · simp only [incrementTok, C2_rewrite, hd, Bool.false_eq_true, if_false]
      rw [incrementTok_eq_C2 year cs]
termination_by p.length
decreasing_by
· exact Nat.lt_succ_of_le (length_dropWhile_le_self _ _)
· simp

/-- C2: `increment_numbers` — the back-to-front splicing loop over the
maximal digit runs of the password — rewrites every maximal digit run
according to the claim's smart-increment rule, preserving leading zeros by
re-padding to the run's original width, and leaves every other character
unchanged. -/
theorem C2_increment_numbers_rewrites_runs (year : ℕ) (p : List Char) :
    increment_numbers year p = C2_rewrite year p := by
  have h := foldr_findRuns_eq year p []
  simp only [List.nil_append, List.length_nil] at h
  rw [increment_numbers, h, incrementTok_eq_C2]

/-- An agreeing observation on a stored entry caps the confidence at 0.95. -/
theorem updateBoolPref_agree (b : Bool) (c w : ℚ) :
    updateBoolPref (some { value := b, confidence := c }) b w
      = { value := b, confidence := min (19/20) (c + w) } := by
  unfold updateBoolPref
  simp

/-- A run of agreeing observations only moves the confidence, by the capped
sum fold. -/
theorem runAgreeingFold_eq (b : Bool) :
    ∀ (ws : List ℚ) (c : ℚ),
      ws.foldl (fun st w => updateBoolPref (some st) b w) { value := b, confidence := c }
        = { value := b, confidence := ws.foldl (fun x w => min (19/20) (x + w)) c } := by
  intro ws
  induction ws with
  | nil => intro c; rfl
  | cons w t ih =>
    intro c
    simp only [List.foldl_cons, updateBoolPref_agree]
    exact ih _

/-- The capped fold never exceeds the cap once below it. -/
theorem confFold_le (ws : List ℚ) : ∀ c : ℚ, c ≤ 19/20 →
    ws.foldl (fun x w => min (19/20) (x + w)) c ≤ 19/20 := by
  induction ws with
  | nil => intro c h; simpa using h
  | cons w t ih => intro c h; exact ih _ (min_le_left _ _)

/-- With every weight at least 0.1, the capped fold is bounded below by the
capped sum. -/
theorem confFold_ge (ws : List ℚ) : ∀ c : ℚ, (∀ w ∈ ws, 1/10 ≤ w) →
    min (19/20) (c + ws.length * (1/10)) ≤ ws.foldl (fun x w => min (19/20) (x + w)) c := by
  induction ws with
  | nil => intro c h; simp
  | cons w t ih =>
    intro c h
    simp only [List.foldl_cons]
    have h1 : ∀ x ∈ t, 1/10 ≤ x := fun x hx => h x (List.mem_cons_of_mem _ hx)
    have hw : 1/10 ≤ w := h w (List.mem_cons_self _ _)
    have hlen : (0 : ℚ) ≤ (t.length : ℚ) := Nat.cast_nonneg _
    refine le_trans ?_ (ih (min (19/20) (c + w)) h1)
    simp only [List.length_cons, Nat.cast_add, Nat.cast_one, min_def]
    split_ifs <;> linarith

/-- C6: the ratchet rule of `_update_preferences_from_feedback` for boolean
settings: the weight is `max(0.1, rating/10)` when accepted and `0.05`
otherwise; an agreeing observation raises the stored confidence by the
weight, capped at 0.95; a disagreeing one lowers it by the weight, floored at
0.05, and if the lowered confidence falls below 0.3 the stored value flips to
the observed value once with confidence reset to 0.6; and five accepted
agreeing observations of a fresh key drive the confidence monotonically up to
exactly the 0.95 cap. -/
theorem C6_behavior_ratchet :
    (∀ (rating : ℤ) (accepted : Bool),
        feedbackWeight rating accepted
          = if accepted then max (1/10) ((rating : ℚ) / 10) else 1/20)
    ∧ (∀ (v obs : Bool) (c w : ℚ),
        (obs = v → updateBoolPref (some { value := v, confidence := c }) obs w
          = { value := v, confidence := min (19/20) (c + w) })
        ∧ (obs ≠ v → ¬(max (1/20) (c - w) < 3/10) →
            updateBoolPref (some { value := v, confidence := c }) obs w
              = { value := v, confidence := max (1/20) (c - w) })
        ∧ (obs ≠ v → max (1/20) (c - w) < 3/10 →
            updateBoolPref (some { value := v, confidence := c }) obs w
              = { value := obs, confidence := 3/5 }))
    ∧ (∀ (b : Bool) (c w : ℚ), 0 ≤ w → c ≤ 19/20 →
        c ≤ (updateBoolPref (some { value := b, confidence := c }) b w).confidence)
    ∧ (∀ (b : Bool) (ws : List ℚ), ws.length = 5 → (∀ w ∈ ws, 1/10 ≤ w) →
        (runAgreeing b ws).value = b ∧ (runAgreeing b ws).confidence = 19/20) := by
  refine ⟨fun rating accepted => rfl, ?_, ?_, ?_⟩
  · intro v obs c w
    refine ⟨fun h => ?_, fun h hn => ?_, fun h hf => ?_⟩
    · subst h; exact updateBoolPref_agree obs c w
    · unfold updateBoolPref
      simp only [Option.map_some', Option.getD_some]
      rw [if_neg h, if_neg hn]
    · unfold updateBoolPref
      simp only [Option.map_some', Option.getD_some]
      rw [if_neg h, if_pos hf]
  · intro b c w hw hc
    rw [updateBoolPref_agree]
    exact le_min hc (by linarith)
  · intro b ws hlen hws
    unfold runAgreeing
    rw [runAgreeingFold_eq]
    refine ⟨rfl, ?_⟩
    have hub := confFold_le ws (1/2) (by norm_num)
    have hlb := confFold_ge ws (1/2) hws
    rw [hlen] at hlb
    have : min ((19:ℚ)/20) (1/2 + (5 : ℕ) * (1/10)) = 19/20 := by norm_num
    rw [this] at hlb
    exact le_antisymm hub hlb

/-- Witness for C6: five accepted observations at the minimal weight reach
the cap. -/
theorem C6_behavior_ratchet_witness :
    (runAgreeing true [1/10, 1/10, 1/10, 1/10, 1/10]).value = true
    ∧ (runAgreeing true [1/10, 1/10, 1/10, 1/10, 1/10]).confidence = 19/20 :=
  C6_behavior_ratchet.2.2.2 true [1/10, 1/10, 1/10, 1/10, 1/10] rfl
    (by norm_num [List.forall_mem_cons])

/-- `pyRound` of a nonnegative rational is nonnegative. -/
theorem pyRound_nonneg (t : ℚ) (h : 0 ≤ t) : 0 ≤ pyRound t := by
  unfold pyRound
  split_ifs with h1 h2
  · exact Int.floor_nonneg.mpr h
  · have : (0 : ℤ) ≤ ⌊t⌋ := Int.floor_nonneg.mpr h
    omega
  · rw [round_eq]
    exact Int.floor_nonneg.mpr (by linarith)

/-- `pyRound` of a rational at most `n` is at most `n`. -/
theorem pyRound_le (t : ℚ) (n : ℕ) (h : t ≤ n) : pyRound t ≤ n := by
  unfold pyRound
  split_ifs with h1 h2
  · calc ⌊t⌋ ≤ ⌊(n : ℚ)⌋ := Int.floor_le_floor h
      _ = n := Int.floor_natCast n
  · have hf : (⌊t⌋ : ℚ) = t - 1/2 := by linarith
    have : (⌊t⌋ : ℚ) < n := by
      rw [hf]; linarith
    have hlt : ⌊t⌋ < (n : ℤ) := by exact_mod_cast this
    omega
  · rw [round_eq]
    have : t + 1/2 < ((n : ℤ) + 1 : ℤ) := by push_cast; linarith
    have := Int.floor_lt.mpr this
    omega

/-- `pyRound3` preserves the unit interval. -/
theorem pyRound3_bounds (x : ℚ) (h0 : 0 ≤ x) (h1 : x ≤ 1) :
    0 ≤ pyRound3 x ∧ pyRound3 x ≤ 1 := by
  unfold pyRound3
  constructor
  · have h := pyRound_nonneg (x * 1000) (by linarith)
    have : (0 : ℚ) ≤ (pyRound (x * 1000) : ℚ) := by exact_mod_cast h
    linarith
  · have h : pyRound (x * 1000) ≤ (1000 : ℕ) := pyRound_le (x * 1000) 1000 (by push_cast; linarith)
    rw [div_le_one (by norm_num)]
    exact_mod_cast h

/-- C7 counterexample: at confidences (1/16, 0, 0) the combined confidence is
0.019, while the exact weighted sum is 0.01875: the code rounds the sum to
three decimals, so the equality is not exact. -/
theorem C7_counterexample_rounding :
    calculate_combined_confidence (1/16) 0 0
      ≠ (3/10) * (1/16) + (1/2) * 0 + (1/5) * 0 := by
  unfold calculate_combined_confidence pyRound3 pyRound
  norm_num [List.zip, List.zipWith, List.foldl, round_eq]

/-- C7 amended: the combined confidence equals the 0.3/0.5/0.2 weighted sum
of the three confidences rounded to three decimal places, and lies in
`[0, 1]` whenever each input does. -/
theorem C7_combined_confidence_rounded_and_bounded (a b c : ℚ) :
    calculate_combined_confidence a b c = pyRound3 ((3/10) * a + (1/2) * b + (1/5) * c)
    ∧ (0 ≤ a → a ≤ 1 → 0 ≤ b → b ≤ 1 → 0 ≤ c → c ≤ 1 →
        0 ≤ calculate_combined_confidence a b c ∧ calculate_combined_confidence a b c ≤ 1) := by
  have heq : calculate_combined_confidence a b c
      = pyRound3 ((3/10) * a + (1/2) * b + (1/5) * c) := by
    unfold calculate_combined_confidence
    simp only [List.zip, List.zipWith, List.foldl]
    ring_nf
  refine ⟨heq, fun h1 h2 h3 h4 h5 h6 => ?_⟩
  rw [heq]
  have ha : (3/10) * a ≤ 3/10 := by linarith
  have hb : (1/2) * b ≤ 1/2 := by linarith
  have hc : (1/5) * c ≤ 1/5 := by linarith
  have ha0 : 0 ≤ (3/10) * a := by linarith
  have hb0 : 0 ≤ (1/2) * b := by linarith
  have hc0 : 0 ≤ (1/5) * c := by linarith
  exact pyRound3_bounds _ (by linarith) (by linarith)

/-- Witness for C7's amended bounds at concrete confidences. -/
theorem C7_combined_confidence_rounded_and_bounded_witness :
    0 ≤ calculate_combined_confidence (1/2) (3/5) (7/10)
    ∧ calculate_combined_confidence (1/2) (3/5) (7/10) ≤ 1 :=
  (C7_combined_confidence_rounded_and_bounded (1/2) (3/5) (7/10)).2
    (by norm_num) (by norm_num) (by norm_num) (by norm_num) (by norm_num) (by norm_num)

/-- The combined pattern-intensity key is never the bare pattern key. -/
theorem setting_key_ne (pt intensity : String) : pt ++ "_" ++ intensity ≠ pt := by
  intro h
  have hl := congrArg String.length h
  rw [String.length_append, String.length_append] at hl
  have : ("_" : String).length = 1 := rfl
  omega

/-- One `_update_success_rates` call applies the exponential rule to the
pattern key. -/
theorem update_success_rates_get (rs : List (String × ℚ)) (pt intensity : String) (s : ℚ) :
    ratesGet (update_success_rates rs pt intensity s) pt 0
      = ratesGet rs pt 0 * (8/10) + s * (2/10) := by
  have h1 : ((pt ++ "_" ++ intensity) == pt) = false := by
    rw [beq_eq_false_iff_ne]
    exact setting_key_ne pt intensity
  have h1b : (pt == (pt ++ "_" ++ intensity)) = false := by
    rw [beq_eq_false_iff_ne]
    exact fun h => setting_key_ne pt intensity h.symm
  have h2 : (pt == pt) = true := by simp
  simp only [update_success_rates, ratesGet, List.lookup, h1, h1b, h2, Option.getD_some]

/-- The per-category rate after `N` learn calls is the scalar iteration of
the exponential rule. -/
theorem learn_iterate_rate (pt intensity : String) :
    ∀ (N : ℕ) (st : LearnerState),
      ratesGet ((fun s => learn_transformation_pattern s pt intensity 1)^[N] st).success_rates pt 0
        = (fun x => x * (8/10) + 1 * (2/10))^[N] (ratesGet st.success_rates pt 0) := by
  intro N
  induction N with
  | zero => intro st; rfl
  | succ k ih =>
    intro st
    rw [Function.iterate_succ_apply, Function.iterate_succ_apply, ih]
    congr 1
    show ratesGet (update_success_rates st.success_rates pt intensity 1) pt 0 = _
    rw [update_success_rates_get]

/-- Closed form of the exponential averaging iteration at score 1. -/
theorem rate_closed_form (r : ℚ) :
    ∀ n : ℕ, (fun x => x * (8/10) + 1 * (2/10))^[n] r = 1 - (1 - r) * (4/5) ^ n := by
  intro n
  induction n with
  | zero => simp
  | succ k ih =>
    rw [Function.iterate_succ_apply', ih]
    ring

/-- C8: starting from any stored per-category success rate in `[0, 1]`,
`N ≥ 20` consecutive learn calls for the pattern type, each with success
score 1.0 and each applying `rate ← rate·0.8 + score·0.2`, leave the stored
rate above 0.9. -/
theorem C8_rate_convergence (st : LearnerState) (pt intensity : String) (N : ℕ)
    (hN : 20 ≤ N) (h0 : 0 ≤ ratesGet st.success_rates pt 0)
    (h1 : ratesGet st.success_rates pt 0 ≤ 1) :
    9/10 < ratesGet
        ((fun s => learn_transformation_pattern s pt intensity 1)^[N] st).success_rates pt 0 := by
  rw [learn_iterate_rate, rate_closed_form]
  have hpow : (0 : ℚ) ≤ (4/5) ^ N := by positivity
  have hp1 : ((4 : ℚ)/5) ^ N ≤ (4/5) ^ 20 :=
    pow_le_pow_of_le_one (by norm_num) (by norm_num) hN
  have hp2 : ((4 : ℚ)/5) ^ 20 < 1/10 := by norm_num
  have hge : (1 - ratesGet st.success_rates pt 0) * (4/5) ^ N ≤ (4/5) ^ N :=
    mul_le_of_le_one_left hpow (by linarith)
  linarith

/-- Witness for C8 from the empty learner state after exactly 20 calls. -/
theorem C8_rate_convergence_witness :
    9/10 < ratesGet
        ((fun s => learn_transformation_pattern s "numeric" "moderate" 1)^[20]
          { historyLen := 0, success_rates := [] }).success_rates "numeric" 0 :=
  C8_rate_convergence { historyLen := 0, success_rates := [] } "numeric" "moderate" 20
    (le_refl 20) (le_refl 0) zero_le_one

/-- `maxByValue` returns an element of its input list. -/
theorem maxByValue_mem : ∀ (l : List (String × ℚ)) (kv : String × ℚ),
    maxByValue l = some kv → kv ∈ l := by
  intro l
  induction l with
  | nil => intro kv h; exact absurd h (by simp [maxByValue])
  | cons x t ih =>
    intro kv h
    unfold maxByValue at h
    cases htl : maxByValue t with
    | none =>
      rw [htl] at h
      simp only [Option.some_inj] at h
      exact h ▸ List.mem_cons_self x t
    | some best =>
      rw [htl] at h
      dsimp only at h
      split_ifs at h with hb
      · simp only [Option.some_inj] at h
        exact List.mem_cons_of_mem x (h ▸ ih best htl)
      · simp only [Option.some_inj] at h
        exact h ▸ List.mem_cons_self x t

/-- C10: the recommended intensity always comes from the keys light,
moderate, aggressive — never the `conservative` of the rest of the intensity
vocabulary — and with no stored success-rate entries for the pattern type the
defaults 0.5/0.6/0.7 select `aggressive`. -/
theorem C10_predict_intensity (rs : List (String × ℚ)) (pt : String) :
    (predict_best_settings_intensity rs pt = "light"
      ∨ predict_best_settings_intensity rs pt = "moderate"
      ∨ predict_best_settings_intensity rs pt = "aggressive")
    ∧ predict_best_settings_intensity rs pt ≠ "conservative"
    ∧ (rs.lookup (pt ++ "_light") = none → rs.lookup (pt ++ "_moderate") = none →
        rs.lookup (pt ++ "_aggressive") = none →
        predict_best_settings_intensity rs pt = "aggressive") := by
  have hmem : predict_best_settings_intensity rs pt = "light"
      ∨ predict_best_settings_intensity rs pt = "moderate"
      ∨ predict_best_settings_intensity rs pt = "aggressive" := by
    unfold predict_best_settings_intensity
    cases hmv : maxByValue (intensity_rates rs pt) with
    | none => left; rfl
    | some kv =>
      have hin := maxByValue_mem _ _ hmv
      simp only [intensity_rates, List.mem_cons, List.not_mem_nil, or_false] at hin
      rcases hin with h | h | h <;> rw [h] <;> simp
  refine ⟨hmem, ?_, ?_⟩
  · rcases hmem with h | h | h <;> rw [h] <;> decide
  · intro hl hm ha
    unfold predict_best_settings_intensity intensity_rates ratesGet
    rw [hl, hm, ha]
    norm_num [maxByValue]

/-- Witness for C10 on the empty rate store. -/
theorem C10_predict_intensity_witness :
    predict_best_settings_intensity [] "numeric" = "aggressive" :=
  (C10_predict_intensity [] "numeric").2.2 rfl rfl rfl
